import Mathlib

/-!
Verification development for the energy-aware DIRAC site-scheduling repository.

The repository has three Python source files:
* `test.py` — a mock `GreenSiteDirector` with the Variant-B weighted composite
  scoring (`_computeQueueScores`) over queues backed by a `MockCE`;
* `Inheritance/GreenSiteDirector.py` — the `SiteDirector` subclass whose
  `_buildQueueDict` resolves queues, synthesizes missing PUE/CI metrics and
  sorts by the lexicographic `(PUE, CI)` key (Variant A);
* `QuerySitesAgent.py` — the `SiteInfoAgent` whose `execute` cycle fetches
  queues, resolves CEs and probes each CE fail-softly.

Python floats are modelled as rationals (`ℚ`), Python dicts holding queue
parameters as association lists in insertion order, DIRAC `S_OK`/`S_ERROR`
result dictionaries as the `DRes` type, and Python calls that may raise as the
`Outcome` type (`raised` = an exception escaped the call, `returned` = a value
came back).  `round(x, n)` is Python's round-half-to-even at `n` decimal
digits, modelled exactly on `ℚ` by `pyRound`.  Python's `sorted` is a stable
sort; it is modelled by the stable insertion sort `isort`/`sortByKey`.
-/

/-- DIRAC result dictionary: `S_OK(value)` or `S_ERROR(message)`. -/
inductive DRes (α : Type) : Type
  | ok : α → DRes α
  | err : String → DRes α
  deriving DecidableEq

/-- Outcome of calling a Python function: it either raised an exception
(carrying its rendered message) or returned a value. -/
inductive Outcome (α : Type) : Type
  | raised : String → Outcome α
  | returned : α → Outcome α
  deriving DecidableEq

/-- `d[k]` / `d.get(k)` on a Python dict modelled as an association list in
insertion order: the value at the first matching key, if any. -/
def dlookup {β : Type} (k : String) : List (String × β) → Option β
  | [] => none
  | (k₁, v) :: t => if k₁ = k then some v else dlookup k t

/-- `d[k] = v` on a Python dict modelled as an association list: overwrite the
first matching key in place, else append the new key at the end (Python dicts
keep insertion order and keep the position of an updated key). -/
def dset {β : Type} (k : String) (v : β) : List (String × β) → List (String × β)
  | [] => [(k, v)]
  | (k₁, v₁) :: t => if k₁ = k then (k₁, v) :: t else (k₁, v₁) :: dset k v t

/-- Round a rational to the nearest integer, ties to the even integer —
exactly Python's `round` on an exact value. -/
def roundHalfEvenInt (q : ℚ) : ℤ :=
  if q - (⌊q⌋ : ℚ) < 1 / 2 then ⌊q⌋
  else if 1 / 2 < q - (⌊q⌋ : ℚ) then ⌊q⌋ + 1
  else if ⌊q⌋ % 2 = 0 then ⌊q⌋ else ⌊q⌋ + 1

/-- Python's `round(q, nd)`: round half-to-even at `nd` decimal digits. -/
def pyRound (nd : ℕ) (q : ℚ) : ℚ :=
  (roundHalfEvenInt (q * 10 ^ nd) : ℚ) / 10 ^ nd

/-- Insert `a` into `l` in front of the first element `b` with `le a b`
(the insertion step of a stable insertion sort). -/
def ordInsert {α : Type} (le : α → α → Bool) (a : α) : List α → List α
  | [] => [a]
  | b :: t => if le a b then a :: b :: t else b :: ordInsert le a t

/-- Stable insertion sort with respect to a boolean comparison, used as the
model of Python's (stable) `sorted`. -/
def isort {α : Type} (le : α → α → Bool) : List α → List α
  | [] => []
  | a :: t => ordInsert le a (isort le t)

/-- Python's `sorted(l, key=key)` with key comparison `kle`: a stable sort
comparing elements by their keys. -/
def sortByKey {α κ : Type} (key : α → κ) (kle : κ → κ → Bool) (l : List α) : List α :=
  isort (fun x y => kle (key x) (key y)) l

/-- `a` occurs (at least once) strictly before `b` in the list `l`. -/
def Before {α : Type} (l : List α) (a b : α) : Prop :=
  List.Sublist [a, b] l

/-! ### `test.py`: the Variant-B weighted-composite `GreenSiteDirector` mock -/

/-- The `CEInfoDict` returned by `MockCE.available()`:
running/waiting/max job counts. -/
structure CEInfo : Type where
  runningJobs : ℕ
  waitingJobs : ℕ
  maxTotalJobs : ℕ
  deriving DecidableEq

/-- One site's entry of `_mockExternalMetrics()`: CO₂ intensity and an
efficiency score. -/
structure ExtMetrics : Type where
  co2 : ℚ
  efficiency : ℚ
  deriving DecidableEq

/-- One queue's entry of `self.queueDict` in `test.py`: `Site`, `CEName`, the
`CE` object (represented by the load snapshot its `available()` call yields
during scoring) and `ParametersDict`. -/
structure QueueInfo : Type where
  site : String
  ceName : String
  ceStats : CEInfo
  parametersDict : List (String × ℚ)
  deriving DecidableEq

/-- `external_data.get(site, {}).get("CO2", 100.0)` in `_computeQueueScores`
(the mock metrics table always carries a `CO2` field, so the two-level default
collapses to the one default `100.0`). -/
def extCO2 (ext : List (String × ExtMetrics)) (site : String) : ℚ :=
  match dlookup site ext with
  | some m => m.co2
  | none => 100

/-- `external_data.get(site, {}).get("efficiency", 0.5)` — read by
`_computeQueueScores` but unused in the score. -/
def extEfficiency (ext : List (String × ExtMetrics)) (site : String) : ℚ :=
  match dlookup site ext with
  | some m => m.efficiency
  | none => 1 / 2

/-- `load_factor = (running + waiting) / max_total` as a rational.  The
division is the total one of `ℚ`; the `ZeroDivisionError` Python raises at
`max_total = 0` is modelled where it occurs in control flow, by `scoreQueue`
returning `none`, so this value is only ever used when `max_total ≠ 0`. -/
def loadFactorOf (s : CEInfo) : ℚ :=
  ((s.runningJobs : ℚ) + (s.waitingJobs : ℚ)) / (s.maxTotalJobs : ℚ)

/-- `score = (co2 * 0.5) + ((cpu_time / 3600.0) * 0.3) + (load_factor * 100 * 0.2)`
— the exact composite before the 2-decimal display rounding. -/
def exactScoreQ (ext : List (String × ExtMetrics)) (cpu : ℚ) (q : QueueInfo) : ℚ :=
  extCO2 ext q.site * (1 / 2) + cpu / 3600 * (3 / 10) + loadFactorOf q.ceStats * 100 * (1 / 5)

/-- The body of the scoring loop for one queue, given its `CPUTime` value:
stores `round(score, 2)` under `CompositeScore` and `round(load_factor, 2)`
under `LoadFactor` in the queue's `ParametersDict`. -/
def scoreQueueCore (ext : List (String × ExtMetrics)) (cpu : ℚ) (nq : String × QueueInfo) :
    String × QueueInfo :=
  (nq.1,
    { nq.2 with
      parametersDict :=
        dset "LoadFactor" (pyRound 2 (loadFactorOf nq.2.ceStats))
          (dset "CompositeScore" (pyRound 2 (exactScoreQ ext cpu nq.2))
            nq.2.parametersDict) })

/-- Scoring one queue — `none` models an exception escaping the loop body:
`qinfo["ParametersDict"]["CPUTime"]` raises a `KeyError` when `CPUTime` is
missing, then `(running + waiting) / max_total` raises a `ZeroDivisionError`
when `max_total = 0`; otherwise the loop body runs. -/
def scoreQueue (ext : List (String × ExtMetrics)) (nq : String × QueueInfo) :
    Option (String × QueueInfo) :=
  match dlookup "CPUTime" nq.2.parametersDict with
  | none => none
  | some cpu =>
    if nq.2.ceStats.maxTotalJobs = 0 then none
    else some (scoreQueueCore ext cpu nq)

/-- The scoring loop of `_computeQueueScores` over all queues in dict order;
`none` when any queue raised. -/
def scoreQueues (ext : List (String × ExtMetrics)) :
    List (String × QueueInfo) → Option (List (String × QueueInfo))
  | [] => some []
  | nq :: t =>
    match scoreQueue ext nq, scoreQueues ext t with
    | some x, some xs => some (x :: xs)
    | _, _ => none

/-- The sort key of `_computeQueueScores`:
`kv[1]["ParametersDict"]["CompositeScore"]` — the stored (rounded) score.
After the scoring loop the key is always present, so the default never fires. -/
def kB (nq : String × QueueInfo) : ℚ :=
  (dlookup "CompositeScore" nq.2.parametersDict).getD 0

/-- Comparison of Variant-B sort keys (ascending rational order). -/
def qleB (a b : ℚ) : Bool :=
  decide (a ≤ b)

/-- `_computeQueueScores`: score every queue, then rebuild `self.queueDict`
sorted ascending by the stored `CompositeScore` (Python's `sorted` is stable). -/
def computeQueueScores (ext : List (String × ExtMetrics)) (l : List (String × QueueInfo)) :
    Option (List (String × QueueInfo)) :=
  match scoreQueues ext l with
  | none => none
  | some scored => some (sortByKey kB qleB scored)

/-! ### `Inheritance/GreenSiteDirector.py`: Variant-A `_buildQueueDict` -/

/-- One resolved queue entry as `_buildQueueDict` sees it: only its
`ParametersDict` is accessed.  `qdict.get("ParametersDict", {})` can miss, so
the field is an `Option`; when it is `none` the synthesis loop mutates a fresh
throwaway dict and the queue entry itself is unchanged. -/
structure GQdict : Type where
  parametersDict : Option (List (String × ℚ))
  deriving DecidableEq

/-- The body of the metric-synthesis loop for one queue, given the values the
two `random.uniform` calls would draw: write `round(uniform(1.0, 2.0), 2)`
under `PUE` only when `PUE` is absent, then `round(uniform(100.0, 500.0), 1)`
under `CI` only when `CI` is absent.  A queue without a `ParametersDict` gets
a fresh `{}` whose mutation is lost. -/
def annotateParams (dPUE dCI : ℚ) (q : GQdict) : GQdict :=
  match q.parametersDict with
  | none => q
  | some pd =>
    let pd₁ := if (dlookup "PUE" pd).isSome then pd else pd ++ [("PUE", pyRound 2 dPUE)]
    let pd₂ := if (dlookup "CI" pd₁).isSome then pd₁ else pd₁ ++ [("CI", pyRound 1 dCI)]
    { parametersDict := some pd₂ }

/-- The metric-synthesis loop over the whole queue dict, the per-queue random
draws given by `draws` (PUE draw, CI draw). -/
def annotateAll (draws : String → ℚ × ℚ) (l : List (String × GQdict)) :
    List (String × GQdict) :=
  l.map fun nq => (nq.1, annotateParams (draws nq.1).1 (draws nq.1).2 nq.2)

/-- The Variant-A sort key
`(item[1]["ParametersDict"]["PUE"], item[1]["ParametersDict"]["CI"])` as the
code evaluates it when every lookup succeeds. -/
def keyA (nq : String × GQdict) : ℚ × ℚ :=
  match nq.2.parametersDict with
  | some pd => ((dlookup "PUE" pd).getD 0, (dlookup "CI" pd).getD 0)
  | none => (0, 0)

/-- Whether evaluating the Variant-A sort key raises: `none` when the entry
has no `ParametersDict` or lacks `PUE` or `CI` (a `KeyError` in the key
lambda), else the key. -/
def keyAopt (nq : String × GQdict) : Option (ℚ × ℚ) :=
  match nq.2.parametersDict with
  | none => none
  | some pd =>
    match dlookup "PUE" pd, dlookup "CI" pd with
    | some p, some c => some (p, c)
    | _, _ => none

/-- Lexicographic comparison of `(PUE, CI)` keys: PUE ascending, ties broken
by CI ascending. -/
def lexLeB (a b : ℚ × ℚ) : Bool :=
  decide (a.1 < b.1 ∨ (a.1 = b.1 ∧ a.2 ≤ b.2))

/-- The Variant-A ranking: stable sort of the queue dict items by the
lexicographic `(PUE, CI)` key. -/
def sortVariantA (l : List (String × GQdict)) : List (String × GQdict) :=
  sortByKey keyA lexLeB l

/-- The sort step of `_buildQueueDict`: `none` when evaluating some entry's
sort key raises a `KeyError` (the exception is caught by the surrounding
`try`), else the sorted dict. -/
def trySortA (l : List (String × GQdict)) : Option (List (String × GQdict)) :=
  if l.all fun nq => (keyAopt nq).isSome then some (sortVariantA l) else none

/-- `GreenSiteDirector._buildQueueDict`.  `resourcesLoad` is the guard before
the `try` block (loading the resources module; its error result is returned
as-is).  `catalog` is the `getQueues` call, `resolver` the `getQueuesResolved`
call — each may raise or return an `S_OK`/`S_ERROR` result.  Inside the `try`:
a catalog or resolver error result is returned unchanged; on success the
resolved dict is stored, metrics are synthesized in place, and the dict is
rebuilt sorted by `(PUE, CI)`.  Any exception inside the `try` is caught and
`S_OK()` is returned with `self.queueDict` left as it stood. -/
def buildQueueDict {σ : Type} (resourcesLoad : DRes Unit) (catalog : Outcome (DRes σ))
    (resolver : σ → Outcome (DRes (List (String × GQdict))))
    (draws : String → ℚ × ℚ)
    (queueDict₀ : List (String × GQdict)) : DRes Unit × List (String × GQdict) :=
  match resourcesLoad with
  | DRes.err m => (DRes.err m, queueDict₀)
  | DRes.ok _ =>
    match catalog with
    | Outcome.raised _ => (DRes.ok (), queueDict₀)
    | Outcome.returned (DRes.err m) => (DRes.err m, queueDict₀)
    | Outcome.returned (DRes.ok sd) =>
      match resolver sd with
      | Outcome.raised _ => (DRes.ok (), queueDict₀)
      | Outcome.returned (DRes.err m) => (DRes.err m, queueDict₀)
      | Outcome.returned (DRes.ok qd) =>
        match trySortA (annotateAll draws qd) with
        | some sortedQ => (DRes.ok (), sortedQ)
        | none => (DRes.ok (), annotateAll draws qd)

/-! ### `QuerySitesAgent.py`: the `SiteInfoAgent` -/

/-- `x or y` on Python strings: `y` when `x` is falsy (empty), else `x`. -/
def orElseStr (a b : String) : String :=
  if a = "" then b else a

/-- `self.am_getOption("VO", default)`: the configured option value when the
option is present (possibly the empty string), else the default. -/
def amGetOption (configured : Option String) (default : String) : String :=
  match configured with
  | some v => v
  | none => default

/-- `SiteInfoAgent.initialize`: sets
`self.vo = am_getOption("VO", getVO() or "biomed")` and returns `S_ERROR` when
the resulting string is falsy, else `S_OK`.  Returns (result, `self.vo`);
`voFromCS` is what `getVO()` returned (`""` for a falsy result). -/
def initAgent (configuredVO : Option String) (voFromCS : String) : DRes Unit × String :=
  let vo := amGetOption configuredVO (orElseStr voFromCS "biomed")
  if vo = "" then (DRes.err "No VO specified or found in CSGlobals", vo)
  else (DRes.ok (), vo)

/-- The result of `ce.available()` when it returns: `{"OK": True, ...}` with a
`CEInfoDict`, or `{"OK": False, "Message": ...}`. -/
inductive AvailResult : Type
  | ok : CEInfo → AvailResult
  | notOk : String → AvailResult
  deriving DecidableEq

/-- One resolved queue entry as `SiteInfoAgent.execute` reads it; `ce` is the
`CE` object reference (identified by a handle name), `none` when absent. -/
structure AQdict : Type where
  site : String
  ceName : String
  ceType : String
  queueName : String
  parametersDict : List (String × ℚ)
  ce : Option String
  deriving DecidableEq

/-- What the per-queue block of `SiteInfoAgent.execute` reports about the CE:
the live numbers on a successful probe, a warning with the result message when
`available()` returns not-OK, a warning when `available()` raises, or a
warning that the queue has no CE object. -/
inductive ProbeOutcome : Type
  | live : ℕ → ℕ → ℕ → ProbeOutcome
  | warnNotOk : String → ProbeOutcome
  | warnRaised : String → ProbeOutcome
  | warnNoCE : ProbeOutcome
  deriving DecidableEq

/-- The per-queue line of the cycle report: identity plus the probe outcome. -/
structure QueueReport : Type where
  queueName : String
  site : String
  ceName : String
  ceType : String
  probe : ProbeOutcome
  deriving DecidableEq

/-- The per-queue body of the `execute` loop: read identity fields with their
defaults and try to fetch live CE info, catching both a not-OK result and an
exception from `ce.available()`. -/
def reportQueue (probe : String → Outcome AvailResult) (nq : String × AQdict) : QueueReport :=
  { queueName := nq.1
    site := nq.2.site
    ceName := nq.2.ceName
    ceType := nq.2.ceType
    probe :=
      match nq.2.ce with
      | none => ProbeOutcome.warnNoCE
      | some c =>
        match probe c with
        | Outcome.raised e => ProbeOutcome.warnRaised e
        | Outcome.returned (AvailResult.notOk m) => ProbeOutcome.warnNotOk m
        | Outcome.returned (AvailResult.ok info) =>
          ProbeOutcome.live info.runningJobs info.waitingJobs info.maxTotalJobs }

/-- `SiteInfoAgent.execute`: a catalog error result is returned unchanged; an
empty site dict short-circuits with `S_OK`; a resolver error result is
returned unchanged; otherwise every resolved queue is processed in dict order
— per-queue probe failures are caught in the loop — and `S_OK` is returned
with the cycle report. -/
def executeAgent {σ : Type} (catalog : DRes (List σ))
    (resolver : List σ → DRes (List (String × AQdict)))
    (probe : String → Outcome AvailResult) : DRes Unit × List QueueReport :=
  match catalog with
  | DRes.err m => (DRes.err m, [])
  | DRes.ok [] => (DRes.ok (), [])
  | DRes.ok siteDict =>
    match resolver siteDict with
    | DRes.err m => (DRes.err m, [])
    | DRes.ok qd => (DRes.ok (), qd.map (reportQueue probe))

/-! ### Concrete scenario data used in the closed evaluations -/

/-- Two sites whose CO₂ values produce exact Variant-B scores 10.011 and
10.012 — distinct, but equal after 2-decimal rounding. -/
def extRound : List (String × ExtMetrics) :=
  [("A", ⟨19.422, 0.9⟩), ("B", ⟨19.424, 0.9⟩)]

/-- Queue at site `A` with an idle CE (load factor 0). -/
def queueRA : QueueInfo :=
  ⟨"A", "ceA", ⟨0, 0, 300⟩, [("CPUTime", 3600)]⟩

/-- Queue at site `B` with an idle CE (load factor 0). -/
def queueRB : QueueInfo :=
  ⟨"B", "ceB", ⟨0, 0, 300⟩, [("CPUTime", 3600)]⟩

/-- Metric table before the CO₂ increase at site `N`. -/
def extMonoLo : List (String × ExtMetrics) :=
  [("U", ⟨10, 0.9⟩), ("N", ⟨20, 0.9⟩)]

/-- Metric table after the CO₂ increase at site `N` (CO₂ 20 → 30). -/
def extMonoHi : List (String × ExtMetrics) :=
  [("U", ⟨10, 0.9⟩), ("N", ⟨30, 0.9⟩)]

/-- Unchanged queue at site `U`. -/
def queueMU : QueueInfo :=
  ⟨"U", "ceU", ⟨0, 0, 300⟩, [("CPUTime", 3600)]⟩

/-- The queue at site `N` whose CO₂ input increases. -/
def queueMN : QueueInfo :=
  ⟨"N", "ceN", ⟨0, 0, 300⟩, [("CPUTime", 3600)]⟩

/-! ### Association-list lemmas -/

theorem dlookup_dset_self {β : Type} (k : String) (v : β) (pd : List (String × β)) :
    dlookup k (dset k v pd) = some v := by
  induction pd with
  | nil => simp [dset, dlookup]
  | cons h t ih =>
    obtain ⟨k₁, v₁⟩ := h
    by_cases hk : k₁ = k
    · simp [dset, dlookup, hk]
    · simp [dset, dlookup, hk, ih]

theorem dlookup_dset_ne {β : Type} {k k' : String} (h : k' ≠ k) (v : β)
    (pd : List (String × β)) : dlookup k' (dset k v pd) = dlookup k' pd := by
  have h' : k ≠ k' := Ne.symm h
  induction pd with
  | nil => simp [dset, dlookup, h']
  | cons hd t ih =>
    obtain ⟨k₁, v₁⟩ := hd
    by_cases hk : k₁ = k
    · subst hk
      simp [dset, dlookup, h']
    · simp [dset, dlookup, hk, ih]

theorem dlookup_append_of_none {β : Type} {k : String} {l₁ : List (String × β)}
    (h : dlookup k l₁ = none) (l₂ : List (String × β)) :
    dlookup k (l₁ ++ l₂) = dlookup k l₂ := by
  induction l₁ with
  | nil => simp
  | cons hd t ih =>
    obtain ⟨k₁, v₁⟩ := hd
    by_cases hk : k₁ = k
    · simp [dlookup, hk] at h
    · simp only [dlookup, hk, if_false, List.cons_append] at h ⊢
      exact ih h

theorem dlookup_append_of_some {β : Type} {k : String} {l₁ : List (String × β)} {v : β}
    (h : dlookup k l₁ = some v) (l₂ : List (String × β)) :
    dlookup k (l₁ ++ l₂) = some v := by
  induction l₁ with
  | nil => simp [dlookup] at h
  | cons hd t ih =>
    obtain ⟨k₁, v₁⟩ := hd
    by_cases hk : k₁ = k
    · simp [dlookup, hk] at h ⊢
      exact h
    · simp only [dlookup, hk, if_false, List.cons_append] at h ⊢
      exact ih h

/-! ### Rounding lemmas -/

theorem le_roundHalfEvenInt (q : ℚ) : ⌊q⌋ ≤ roundHalfEvenInt q := by
  unfold roundHalfEvenInt
  split_ifs <;> omega

theorem roundHalfEvenInt_le (q : ℚ) : roundHalfEvenInt q ≤ ⌊q⌋ + 1 := by
  unfold roundHalfEvenInt
  split_ifs <;> omega

theorem roundHalfEvenInt_mono {x y : ℚ} (h : x ≤ y) :
    roundHalfEvenInt x ≤ roundHalfEvenInt y := by
  have hfl : ⌊x⌋ ≤ ⌊y⌋ := Int.floor_le_floor h
  rcases lt_or_eq_of_le hfl with hlt | heq
  · calc roundHalfEvenInt x ≤ ⌊x⌋ + 1 := roundHalfEvenInt_le x
      _ ≤ ⌊y⌋ := by omega
      _ ≤ roundHalfEvenInt y := le_roundHalfEvenInt y
  · have hfrac : x - (⌊x⌋ : ℚ) ≤ y - (⌊y⌋ : ℚ) := by
      rw [← heq]
      linarith
    unfold roundHalfEvenInt
    rw [← heq]
    split_ifs <;> first
      | omega
      | (exfalso; rw [← heq] at hfrac; linarith)

theorem pyRound_mono (nd : ℕ) {x y : ℚ} (h : x ≤ y) : pyRound nd x ≤ pyRound nd y := by
  unfold pyRound
  have hp : (0 : ℚ) < 10 ^ nd := by positivity
  apply div_le_div_of_nonneg_right ?_ (le_of_lt hp)
  exact_mod_cast roundHalfEvenInt_mono (mul_le_mul_of_nonneg_right h (le_of_lt hp))

/-! ### Stable-sort lemmas -/

theorem mem_ordInsert {α : Type} (le : α → α → Bool) (a x : α) (l : List α) :
    x ∈ ordInsert le a l ↔ x = a ∨ x ∈ l := by
  induction l with
  | nil => simp [ordInsert]
  | cons b t ih =>
    by_cases h : le a b = true
    · simp only [ordInsert, if_pos h, List.mem_cons]
    · simp only [ordInsert, if_neg h, List.mem_cons, ih]
      tauto

theorem ordInsert_perm {α : Type} (le : α → α → Bool) (a : α) (l : List α) :
    List.Perm (ordInsert le a l) (a :: l) := by
  induction l with
  | nil => exact List.Perm.refl _
  | cons b t ih =>
    by_cases h : le a b = true
    · rw [ordInsert, if_pos h]
    · rw [ordInsert, if_neg h]
      exact (ih.cons b).trans (List.Perm.swap a b t)

theorem isort_perm {α : Type} (le : α → α → Bool) (l : List α) :
    List.Perm (isort le l) l := by
  induction l with
  | nil => exact List.Perm.refl _
  | cons a t ih => exact (ordInsert_perm le a (isort le t)).trans (ih.cons a)

theorem pairwise_ordInsert {α : Type} (le : α → α → Bool)
    (htot : ∀ a b, le a b = true ∨ le b a = true)
    (htrans : ∀ a b c, le a b = true → le b c = true → le a c = true)
    (a : α) (l : List α) (h : l.Pairwise fun x y => le x y = true) :
    (ordInsert le a l).Pairwise fun x y => le x y = true := by
  induction l with
  | nil => simp [ordInsert]
  | cons b t ih =>
    rw [List.pairwise_cons] at h
    obtain ⟨hb, ht⟩ := h
    by_cases hab : le a b = true
    · rw [ordInsert, if_pos hab]
      refine List.pairwise_cons.mpr ⟨?_, List.pairwise_cons.mpr ⟨hb, ht⟩⟩
      intro x hx
      rcases List.mem_cons.mp hx with rfl | hxt
      · exact hab
      · exact htrans a b x hab (hb x hxt)
    · rw [ordInsert, if_neg hab]
      refine List.pairwise_cons.mpr ⟨?_, ih ht⟩
      intro x hx
      rcases (mem_ordInsert le a x t).mp hx with rfl | hxt
      · exact (htot x b).resolve_left hab
      · exact hb x hxt

theorem pairwise_isort {α : Type} (le : α → α → Bool)
    (htot : ∀ a b, le a b = true ∨ le b a = true)
    (htrans : ∀ a b c, le a b = true → le b c = true → le a c = true)
    (l : List α) : (isort le l).Pairwise fun x y => le x y = true := by
  induction l with
  | nil => simp [isort]
  | cons a t ih => exact pairwise_ordInsert le htot htrans a _ ih

theorem filter_ordInsert {α κ : Type} [DecidableEq κ] (key : α → κ) (kle : κ → κ → Bool)
    (htot : ∀ u v, kle u v = true ∨ kle v u = true)
    (a : α) (l : List α) (k : κ) :
    (ordInsert (fun x y => kle (key x) (key y)) a l).filter (fun x => decide (key x = k)) =
      (a :: l).filter fun x => decide (key x = k) := by
  induction l with
  | nil => rfl
  | cons b t ih =>
    by_cases hab : kle (key a) (key b) = true
    · rw [ordInsert, if_pos hab]
    · rw [ordInsert, if_neg hab]
      by_cases hpa : key a = k
      · have hpb : ¬key b = k := by
          intro hbk
          apply hab
          have hk2 : key a = key b := by rw [hpa, hbk]
          rw [← hk2]
          rcases htot (key a) (key a) with h1 | h1 <;> exact h1
        simp [List.filter_cons, hpa, hpb, ih]
      · simp [List.filter_cons, hpa, ih]

theorem filter_isort {α κ : Type} [DecidableEq κ] (key : α → κ) (kle : κ → κ → Bool)
    (htot : ∀ u v, kle u v = true ∨ kle v u = true) (l : List α) (k : κ) :
    (isort (fun x y => kle (key x) (key y)) l).filter (fun x => decide (key x = k)) =
      l.filter fun x => decide (key x = k) := by
  induction l with
  | nil => rfl
  | cons a t ih =>
    rw [isort, filter_ordInsert key kle htot a _ k]
    simp [List.filter_cons, ih]

theorem sortByKey_perm {α κ : Type} (key : α → κ) (kle : κ → κ → Bool) (l : List α) :
    List.Perm (sortByKey key kle l) l :=
  isort_perm _ l

theorem sortByKey_pairwise {α κ : Type} (key : α → κ) (kle : κ → κ → Bool)
    (htot : ∀ u v, kle u v = true ∨ kle v u = true)
    (htrans : ∀ u v w, kle u v = true → kle v w = true → kle u w = true)
    (l : List α) :
    (sortByKey key kle l).Pairwise fun x y => kle (key x) (key y) = true :=
  pairwise_isort _ (fun a b => htot (key a) (key b))
    (fun a b c => htrans (key a) (key b) (key c)) l

theorem sortByKey_filter {α κ : Type} [DecidableEq κ] (key : α → κ) (kle : κ → κ → Bool)
    (htot : ∀ u v, kle u v = true ∨ kle v u = true) (l : List α) (k : κ) :
    (sortByKey key kle l).filter (fun x => decide (key x = k)) =
      l.filter fun x => decide (key x = k) :=
  filter_isort key kle htot l k

/-! ### Relative-position lemmas -/

theorem before_mem {α : Type} {l : List α} {a b : α} (h : Before l a b) :
    a ∈ l ∧ b ∈ l :=
  ⟨h.subset (by simp), h.subset (by simp)⟩

theorem before_total {α : Type} {l : List α} {a b : α} (ha : a ∈ l) (hb : b ∈ l)
    (hab : a ≠ b) : Before l a b ∨ Before l b a := by
  induction l with
  | nil => simp at ha
  | cons c t ih =>
    rcases List.mem_cons.mp ha with rfl | hat
    · have hbt : b ∈ t := by
        rcases List.mem_cons.mp hb with rfl | h'
        · exact absurd rfl hab
        · exact h'
      exact Or.inl (List.cons_sublist_cons.mpr (List.singleton_sublist.mpr hbt))
    · rcases List.mem_cons.mp hb with rfl | hbt
      · exact Or.inr (List.cons_sublist_cons.mpr (List.singleton_sublist.mpr hat))
      · rcases ih hat hbt with h | h
        · exact Or.inl (h.cons c)
        · exact Or.inr (h.cons c)

theorem before_antisymm {α : Type} {l : List α} (hl : l.Nodup) {a b : α}
    (h1 : Before l a b) (h2 : Before l b a) : a = b := by
  induction l with
  | nil => exact absurd ((before_mem h1).1) (by simp)
  | cons c t ih =>
    obtain ⟨hc, ht⟩ := List.nodup_cons.mp hl
    rcases List.sublist_cons_iff.mp h1 with h1t | ⟨r1, he1, hr1⟩
    · rcases List.sublist_cons_iff.mp h2 with h2t | ⟨r2, he2, hr2⟩
      · exact ih ht h1t h2t
      · injection he2 with he2a he2b
        subst he2a
        exact absurd (h1t.subset (by simp)) hc
    · injection he1 with he1a he1b
      subst he1a
      rcases List.sublist_cons_iff.mp h2 with h2t | ⟨r2, he2, hr2⟩
      · exact absurd (h2t.subset (by simp)) hc
      · injection he2 with he2a he2b
        exact he2a.symm

theorem before_rel {α : Type} {R : α → α → Prop} {l : List α} (hp : l.Pairwise R)
    {a b : α} (h : Before l a b) : R a b := by
  have hpair : List.Pairwise R [a, b] := hp.sublist h
  exact (List.pairwise_cons.mp hpair).1 b (by simp)

theorem before_filter {α : Type} {p : α → Bool} {l : List α} {a b : α} (h : Before l a b)
    (hpa : p a = true) (hpb : p b = true) : Before (l.filter p) a b := by
  have hf : List.Sublist (([a, b] : List α).filter p) (l.filter p) := List.Sublist.filter p h
  simpa [List.filter, hpa, hpb] using hf

theorem before_of_filter {α : Type} {p : α → Bool} {l : List α} {a b : α}
    (h : Before (l.filter p) a b) : Before l a b :=
  List.Sublist.trans h (List.filter_sublist l)

theorem before_sortByKey {α κ : Type} [DecidableEq κ] (key : α → κ) (kle : κ → κ → Bool)
    (htot : ∀ u v, kle u v = true ∨ kle v u = true)
    (htrans : ∀ u v w, kle u v = true → kle v w = true → kle u w = true)
    (hanti : ∀ u v, kle u v = true → kle v u = true → u = v)
    {l : List α} (hnd : l.Nodup) {a b : α} (ha : a ∈ l) (hb : b ∈ l) (hab : a ≠ b) :
    Before (sortByKey key kle l) a b ↔
      (kle (key a) (key b) = true ∧ key a ≠ key b) ∨ (key a = key b ∧ Before l a b) := by
  have hperm : List.Perm (sortByKey key kle l) l := sortByKey_perm key kle l
  have hpw : (sortByKey key kle l).Pairwise (fun x y => kle (key x) (key y) = true) :=
    sortByKey_pairwise key kle htot htrans l
  have ha' : a ∈ sortByKey key kle l := hperm.mem_iff.mpr ha
  have hb' : b ∈ sortByKey key kle l := hperm.mem_iff.mpr hb
  constructor
  · intro h
    have hk : kle (key a) (key b) = true := before_rel hpw h
    by_cases heq : key a = key b
    · refine Or.inr ⟨heq, ?_⟩
      have h1 : Before ((sortByKey key kle l).filter fun x => decide (key x = key b)) a b :=
        before_filter h (by simp [heq]) (by simp)
      rw [sortByKey_filter key kle htot l (key b)] at h1
      exact before_of_filter h1
    · exact Or.inl ⟨hk, heq⟩
  · intro h
    rcases h with ⟨hk, hne⟩ | ⟨heq, hbl⟩
    · rcases before_total ha' hb' hab with h | h
      · exact h
      · exact absurd (hanti _ _ hk (before_rel hpw h)) hne
    · have h1 : Before (l.filter fun x => decide (key x = key b)) a b :=
        before_filter hbl (by simp [heq]) (by simp)
      rw [← sortByKey_filter key kle htot l (key b)] at h1
      exact before_of_filter h1

theorem before_names_of_before {β : Type} {l : List (String × β)} {a b : String × β}
    (h : Before l a b) : Before (l.map Prod.fst) a.1 b.1 := by
  have hm := h.map Prod.fst
  simpa using hm

theorem before_of_before_names {β : Type} {l : List (String × β)}
    (hnd : (l.map Prod.fst).Nodup) {a b : String × β}
    (ha : a ∈ l) (hb : b ∈ l) (hab : a.1 ≠ b.1)
    (h : Before (l.map Prod.fst) a.1 b.1) : Before l a b := by
  induction l with
  | nil => simp at ha
  | cons c t ih =>
    rw [List.map_cons] at hnd h
    obtain ⟨hc, ht⟩ := List.nodup_cons.mp hnd
    rcases List.sublist_cons_iff.mp h with hT | ⟨r, he, hr⟩
    · have haT : a ∈ t := by
        rcases List.mem_cons.mp ha with rfl | h'
        · have hmem : a.1 ∈ t.map Prod.fst := hT.subset (List.mem_cons_self a.1 [b.1])
          exact absurd hmem hc
        · exact h'
      have hbT : b ∈ t := by
        rcases List.mem_cons.mp hb with rfl | h'
        · have hmem : b.1 ∈ t.map Prod.fst := hT.subset (by simp)
          exact absurd hmem hc
        · exact h'
      exact (ih ht haT hbT hT).cons c
    · injection he with he1 he2
      subst he2
      have hbn : b.1 ∈ t.map Prod.fst := List.singleton_sublist.mp hr
      have hbT : b ∈ t := by
        rcases List.mem_cons.mp hb with rfl | h'
        · exact absurd hbn hc
        · exact h'
      have haC : a = c := by
        rcases List.mem_cons.mp ha with rfl | h'
        · rfl
        · exact absurd (he1 ▸ List.mem_map_of_mem Prod.fst h') hc
      subst haC
      exact List.cons_sublist_cons.mpr (List.singleton_sublist.mpr hbT)

theorem beforeNames_sortByKey {β κ : Type} [DecidableEq κ] (key : String × β → κ)
    (kle : κ → κ → Bool)
    (htot : ∀ u v, kle u v = true ∨ kle v u = true)
    (htrans : ∀ u v w, kle u v = true → kle v w = true → kle u w = true)
    (hanti : ∀ u v, kle u v = true → kle v u = true → u = v)
    {l : List (String × β)} (hnd : (l.map Prod.fst).Nodup)
    {a b : String × β} (ha : a ∈ l) (hb : b ∈ l) (hab : a.1 ≠ b.1) :
    Before ((sortByKey key kle l).map Prod.fst) a.1 b.1 ↔
      (kle (key a) (key b) = true ∧ key a ≠ key b) ∨
        (key a = key b ∧ Before (l.map Prod.fst) a.1 b.1) := by
  have hndl : l.Nodup := List.Nodup.of_map Prod.fst hnd
  have hab' : a ≠ b := fun he => hab (congrArg Prod.fst he)
  have hnds : ((sortByKey key kle l).map Prod.fst).Nodup :=
    (((sortByKey_perm key kle l).map Prod.fst).nodup_iff).mpr hnd
  constructor
  · intro h
    have hmem_a : a ∈ sortByKey key kle l := (sortByKey_perm key kle l).mem_iff.mpr ha
    have hmem_b : b ∈ sortByKey key kle l := (sortByKey_perm key kle l).mem_iff.mpr hb
    have h' : Before (sortByKey key kle l) a b :=
      before_of_before_names hnds hmem_a hmem_b hab h
    rcases (before_sortByKey key kle htot htrans hanti hndl ha hb hab').mp h' with
      h1 | ⟨h2, h3⟩
    · exact Or.inl h1
    · exact Or.inr ⟨h2, before_names_of_before h3⟩
  · intro h
    have h' : Before (sortByKey key kle l) a b := by
      apply (before_sortByKey key kle htot htrans hanti hndl ha hb hab').mpr
      rcases h with h1 | ⟨h2, h3⟩
      · exact Or.inl h1
      · exact Or.inr ⟨h2, before_of_before_names hnd ha hb hab h3⟩
    exact before_names_of_before h'

/-! ### Comparator properties and evaluation helpers -/

theorem qleB_total (u v : ℚ) : qleB u v = true ∨ qleB v u = true := by
  simp only [qleB, decide_eq_true_eq]
  exact le_total u v

theorem qleB_trans (u v w : ℚ) : qleB u v = true → qleB v w = true → qleB u w = true := by
  simp only [qleB, decide_eq_true_eq]
  exact le_trans

theorem qleB_antisymm (u v : ℚ) : qleB u v = true → qleB v u = true → u = v := by
  simp only [qleB, decide_eq_true_eq]
  exact le_antisymm

theorem lexLeB_total (u v : ℚ × ℚ) : lexLeB u v = true ∨ lexLeB v u = true := by
  simp only [lexLeB, decide_eq_true_eq]
  rcases lt_trichotomy u.1 v.1 with h | h | h
  · exact Or.inl (Or.inl h)
  · rcases le_total u.2 v.2 with h2 | h2
    · exact Or.inl (Or.inr ⟨h, h2⟩)
    · exact Or.inr (Or.inr ⟨h.symm, h2⟩)
  · exact Or.inr (Or.inl h)

theorem lexLeB_trans (u v w : ℚ × ℚ) :
    lexLeB u v = true → lexLeB v w = true → lexLeB u w = true := by
  simp only [lexLeB, decide_eq_true_eq]
  intro h1 h2
  rcases h1 with h1 | ⟨he1, hl1⟩ <;> rcases h2 with h2 | ⟨he2, hl2⟩
  · exact Or.inl (lt_trans h1 h2)
  · exact Or.inl (by rw [← he2]; exact h1)
  · exact Or.inl (by rw [he1]; exact h2)
  · exact Or.inr ⟨he1.trans he2, le_trans hl1 hl2⟩

theorem lexLeB_antisymm (u v : ℚ × ℚ) :
    lexLeB u v = true → lexLeB v u = true → u = v := by
  simp only [lexLeB, decide_eq_true_eq]
  intro h1 h2
  rcases h1 with h1 | ⟨he1, hl1⟩ <;> rcases h2 with h2 | ⟨he2, hl2⟩
  · exact absurd h2 (lt_asymm h1)
  · exact absurd (he2 ▸ h1) (lt_irrefl v.1)
  · exact absurd (he1 ▸ h2) (lt_irrefl v.1)
  · exact Prod.ext he1 (le_antisymm hl1 hl2)

theorem pyRound_eq_of_lt {nd : ℕ} {q : ℚ} {f : ℤ} (hf : ⌊q * 10 ^ nd⌋ = f)
    (hlt : q * 10 ^ nd - (f : ℚ) < 1 / 2) : pyRound nd q = (f : ℚ) / 10 ^ nd := by
  rw [pyRound, roundHalfEvenInt, hf, if_pos hlt]

/-! ### Scoring-pipeline lemmas -/

theorem scoreQueueCore_fst (ext : List (String × ExtMetrics)) (cpu : ℚ)
    (nq : String × QueueInfo) : (scoreQueueCore ext cpu nq).1 = nq.1 :=
  rfl

theorem lookupCS_scoreQueueCore (ext : List (String × ExtMetrics)) (cpu : ℚ)
    (nq : String × QueueInfo) :
    dlookup "CompositeScore" (scoreQueueCore ext cpu nq).2.parametersDict =
      some (pyRound 2 (exactScoreQ ext cpu nq.2)) := by
  unfold scoreQueueCore
  rw [dlookup_dset_ne (show ("CompositeScore" : String) ≠ "LoadFactor" by decide),
    dlookup_dset_self]

theorem lookupLF_scoreQueueCore (ext : List (String × ExtMetrics)) (cpu : ℚ)
    (nq : String × QueueInfo) :
    dlookup "LoadFactor" (scoreQueueCore ext cpu nq).2.parametersDict =
      some (pyRound 2 (loadFactorOf nq.2.ceStats)) := by
  unfold scoreQueueCore
  rw [dlookup_dset_self]

theorem kB_scoreQueueCore (ext : List (String × ExtMetrics)) (cpu : ℚ)
    (nq : String × QueueInfo) :
    kB (scoreQueueCore ext cpu nq) = pyRound 2 (exactScoreQ ext cpu nq.2) := by
  rw [kB, lookupCS_scoreQueueCore]
  rfl

theorem scoreQueues_eq_map (ext : List (String × ExtMetrics)) (l : List (String × QueueInfo))
    (h : ∀ nq ∈ l, (dlookup "CPUTime" nq.2.parametersDict).isSome = true)
    (hm : ∀ nq ∈ l, nq.2.ceStats.maxTotalJobs ≠ 0) :
    scoreQueues ext l =
      some (l.map fun nq =>
        scoreQueueCore ext ((dlookup "CPUTime" nq.2.parametersDict).getD 0) nq) := by
  induction l with
  | nil => rfl
  | cons nq t ih =>
    have hnq := h nq (List.mem_cons_self nq t)
    obtain ⟨cpu, hcpu⟩ := Option.isSome_iff_exists.mp hnq
    have ht := ih (fun x hx => h x (List.mem_cons_of_mem nq hx))
      (fun x hx => hm x (List.mem_cons_of_mem nq hx))
    simp only [scoreQueues, scoreQueue, hcpu, ht, List.map_cons, Option.getD_some,
      if_neg (hm nq (List.mem_cons_self nq t))]

theorem scoreQueue_some_inv {ext : List (String × ExtMetrics)} {nq x : String × QueueInfo}
    (h : scoreQueue ext nq = some x) :
    (dlookup "CPUTime" nq.2.parametersDict).isSome = true ∧
      nq.2.ceStats.maxTotalJobs ≠ 0 := by
  rcases hc : dlookup "CPUTime" nq.2.parametersDict with _ | cpu
  · simp only [scoreQueue, hc] at h
    exact Option.noConfusion h
  · simp only [scoreQueue, hc] at h
    by_cases hz : nq.2.ceStats.maxTotalJobs = 0
    · rw [if_pos hz] at h
      exact Option.noConfusion h
    · exact ⟨rfl, hz⟩

theorem scoreQueues_some_inv {ext : List (String × ExtMetrics)}
    {l res : List (String × QueueInfo)} (h : scoreQueues ext l = some res) :
    ∀ nq ∈ l, (dlookup "CPUTime" nq.2.parametersDict).isSome = true ∧
      nq.2.ceStats.maxTotalJobs ≠ 0 := by
  induction l generalizing res with
  | nil =>
    intro nq hnq
    exact absurd hnq (List.not_mem_nil nq)
  | cons a t ih =>
    intro nq hnq
    rw [scoreQueues] at h
    rcases ha : scoreQueue ext a with _ | x
    · rw [ha] at h
      exact Option.noConfusion h
    · rcases hts : scoreQueues ext t with _ | xs
      · rw [ha, hts] at h
        exact Option.noConfusion h
      · rcases List.mem_cons.mp hnq with rfl | hmem
        · exact scoreQueue_some_inv ha
        · exact ih hts nq hmem

theorem computeQueueScores_eq (ext : List (String × ExtMetrics))
    (l : List (String × QueueInfo))
    (h : ∀ nq ∈ l, (dlookup "CPUTime" nq.2.parametersDict).isSome = true)
    (hm : ∀ nq ∈ l, nq.2.ceStats.maxTotalJobs ≠ 0) :
    computeQueueScores ext l =
      some (sortByKey kB qleB (l.map fun nq =>
        scoreQueueCore ext ((dlookup "CPUTime" nq.2.parametersDict).getD 0) nq)) := by
  rw [computeQueueScores, scoreQueues_eq_map ext l h hm]

theorem map_fst_scored (ext : List (String × ExtMetrics)) (l : List (String × QueueInfo)) :
    (l.map fun nq =>
        scoreQueueCore ext ((dlookup "CPUTime" nq.2.parametersDict).getD 0) nq).map Prod.fst =
      l.map Prod.fst := by
  rw [List.map_map]
  rfl

theorem pyRound_intCast (nd : ℕ) (c : ℤ) : pyRound nd (c : ℚ) = c := by
  have hf : ⌊(c : ℚ) * 10 ^ nd⌋ = c * 10 ^ nd := by
    rw [show ((c : ℚ) * 10 ^ nd) = ((c * 10 ^ nd : ℤ) : ℚ) by push_cast; ring,
      Int.floor_intCast]
  rw [pyRound_eq_of_lt hf (by push_cast; ring_nf; norm_num)]
  push_cast
  rw [mul_div_assoc, div_self (by positivity), mul_one]

theorem pyRound_le_intCast (nd : ℕ) (x : ℚ) (c : ℤ) (h : x ≤ (c : ℚ)) :
    pyRound nd x ≤ (c : ℚ) := by
  have hm := pyRound_mono nd h
  rwa [pyRound_intCast nd c] at hm

theorem intCast_le_pyRound (nd : ℕ) (x : ℚ) (c : ℤ) (h : (c : ℚ) ≤ x) :
    (c : ℚ) ≤ pyRound nd x := by
  have hm := pyRound_mono nd h
  rwa [pyRound_intCast nd c] at hm

/-- C1: for every queue whose parameters carry `CPUTime = cpu`, whose site
resolves to CO₂ value `co2`, and whose CE load snapshot has `maxTotal > 0`,
the Variant-B scorer of `_computeQueueScores` computes
`loadFactor = (running + waiting) / maxTotal` and the composite
`score = co2 * 0.5 + (cpu / 3600) * 0.3 + (loadFactor * 100) * 0.2` (the
documented default weights 0.5 / 0.3 / 0.2), performs no clamping of the load
factor on overcommit (`running + waiting > maxTotal` gives `loadFactor > 1`),
and stores `CompositeScore` and `LoadFactor` (their 2-decimal roundings, per
the display-rounding rule) on the queue's parameter dict. -/
theorem variantB_score_formula (ext : List (String × ExtMetrics)) (n : String)
    (q : QueueInfo) (cpu co2 : ℚ)
    (hcpu : dlookup "CPUTime" q.parametersDict = some cpu)
    (hco2 : extCO2 ext q.site = co2)
    (hm : 0 < q.ceStats.maxTotalJobs) :
    scoreQueue ext (n, q) = some (scoreQueueCore ext cpu (n, q)) ∧
    loadFactorOf q.ceStats =
      ((q.ceStats.runningJobs : ℚ) + (q.ceStats.waitingJobs : ℚ)) /
        (q.ceStats.maxTotalJobs : ℚ) ∧
    exactScoreQ ext cpu q =
      co2 * 0.5 + cpu / 3600 * 0.3 + loadFactorOf q.ceStats * 100 * 0.2 ∧
    dlookup "CompositeScore" (scoreQueueCore ext cpu (n, q)).2.parametersDict =
      some (pyRound 2 (exactScoreQ ext cpu q)) ∧
    dlookup "LoadFactor" (scoreQueueCore ext cpu (n, q)).2.parametersDict =
      some (pyRound 2 (loadFactorOf q.ceStats)) ∧
    (q.ceStats.maxTotalJobs < q.ceStats.runningJobs + q.ceStats.waitingJobs →
      1 < loadFactorOf q.ceStats) := by
  refine ⟨?_, rfl, ?_, lookupCS_scoreQueueCore ext cpu (n, q),
    lookupLF_scoreQueueCore ext cpu (n, q), ?_⟩
  · simp only [scoreQueue, hcpu, if_neg (Nat.pos_iff_ne_zero.mp hm)]
  · rw [exactScoreQ, hco2]
    norm_num
  · intro h
    have hm' : (0 : ℚ) < (q.ceStats.maxTotalJobs : ℚ) := by exact_mod_cast hm
    rw [loadFactorOf, lt_div_iff hm', one_mul]
    exact_mod_cast h

/-- Witness for C1: a concrete overcommitted queue (400 jobs against a
maximum of 300) at a site with CO₂ 20. -/
theorem variantB_score_formula_witness :
    dlookup "CompositeScore"
        (scoreQueueCore [("S", ⟨20, 1⟩)] 3600
          ("q1", ⟨"S", "ce1", ⟨200, 200, 300⟩, [("CPUTime", 3600)]⟩)).2.parametersDict =
      some (pyRound 2 (exactScoreQ [("S", ⟨20, 1⟩)] 3600
        ⟨"S", "ce1", ⟨200, 200, 300⟩, [("CPUTime", 3600)]⟩)) ∧
    1 < loadFactorOf ⟨200, 200, 300⟩ := by
  have h := variantB_score_formula [("S", ⟨20, 1⟩)] "q1"
    ⟨"S", "ce1", ⟨200, 200, 300⟩, [("CPUTime", 3600)]⟩ 3600 20 rfl rfl (by norm_num)
  exact ⟨h.2.2.2.1, h.2.2.2.2.2 (by norm_num)⟩

/-- C2: on every queue dict whose entries all carry `PUE` and `CI` (so the
sort-key lambda raises nowhere), the Variant-A ranking of `_buildQueueDict`
succeeds and is exactly the stable sort by the lexicographic
`(PUE ascending, CI ascending)` key: the output is a permutation of the input
entries (no composite scalar is computed — entries are reordered unchanged),
it is sorted by the lexicographic key, and for every key value the sub-list
of queues with that exact `(PUE, CI)` key keeps its original resolution
order (stability). -/
theorem variantA_lex_stable (l : List (String × GQdict))
    (h : ∀ nq ∈ l, (keyAopt nq).isSome = true) :
    trySortA l = some (sortVariantA l) ∧
    List.Perm (sortVariantA l) l ∧
    (sortVariantA l).Pairwise (fun x y => lexLeB (keyA x) (keyA y) = true) ∧
    ∀ k, (sortVariantA l).filter (fun x => decide (keyA x = k)) =
        l.filter fun x => decide (keyA x = k) := by
  refine ⟨?_, sortByKey_perm keyA lexLeB l,
    sortByKey_pairwise keyA lexLeB lexLeB_total lexLeB_trans l,
    fun k => sortByKey_filter keyA lexLeB lexLeB_total l k⟩
  rw [trySortA, if_pos]
  exact List.all_eq_true.mpr h

/-- Witness for C2: a concrete two-queue dict with all metrics present. -/
theorem variantA_lex_stable_witness :
    trySortA [("q2", ⟨some [("PUE", 2), ("CI", 1)]⟩), ("q1", ⟨some [("PUE", 1), ("CI", 3)]⟩)] =
      some (sortVariantA
        [("q2", ⟨some [("PUE", 2), ("CI", 1)]⟩), ("q1", ⟨some [("PUE", 1), ("CI", 3)]⟩)]) ∧
    List.Perm
      (sortVariantA
        [("q2", ⟨some [("PUE", 2), ("CI", 1)]⟩), ("q1", ⟨some [("PUE", 1), ("CI", 3)]⟩)])
      [("q2", ⟨some [("PUE", 2), ("CI", 1)]⟩), ("q1", ⟨some [("PUE", 1), ("CI", 3)]⟩)] ∧
    (sortVariantA
        [("q2", ⟨some [("PUE", 2), ("CI", 1)]⟩),
          ("q1", ⟨some [("PUE", 1), ("CI", 3)]⟩)]).filter
        (fun x => decide (keyA x = (1, 3))) =
      [("q2", ⟨some [("PUE", 2), ("CI", 1)]⟩),
        ("q1", ⟨some [("PUE", 1), ("CI", 3)]⟩)].filter fun x => decide (keyA x = (1, 3)) := by
  have h := variantA_lex_stable
    [("q2", ⟨some [("PUE", 2), ("CI", 1)]⟩), ("q1", ⟨some [("PUE", 1), ("CI", 3)]⟩)]
    (by decide)
  exact ⟨h.1, h.2.1, h.2.2.2 (1, 3)⟩

/-- C5: when the catalog call comes back with an error result, the cycle
short-circuits — `_buildQueueDict` returns that same error with
`self.queueDict` untouched, whatever the resolver and the random draws would
do (no queue resolution happens), and `SiteInfoAgent.execute` returns the
same error with an empty cycle report, whatever the resolver and the probes
would do (no probing happens, no ranked list is produced). -/
theorem catalog_error_short_circuit {σ τ : Type} (m : String)
    (resolver : σ → Outcome (DRes (List (String × GQdict))))
    (draws : String → ℚ × ℚ) (st : List (String × GQdict))
    (resolver₂ : List τ → DRes (List (String × AQdict)))
    (probe : String → Outcome AvailResult) :
    buildQueueDict (DRes.ok ()) (Outcome.returned (DRes.err m)) resolver draws st =
      (DRes.err m, st) ∧
    executeAgent (DRes.err m) resolver₂ probe = (DRes.err m, []) :=
  ⟨rfl, rfl⟩

/-- C9 counterexample: with no `VO` option configured and `getVO()`
supplying nothing, `initialize` does not fail — it falls back to the literal
`"biomed"` and returns `S_OK`, contradicting the claim that an absent
community is a fatal initialization error. -/
theorem initAgent_no_vo_succeeds : initAgent none "" = (DRes.ok (), "biomed") :=
  rfl

/-- C9 (amended): `initialize` returns `S_ERROR` exactly when the `VO`
option is explicitly configured as the empty string; when no `VO` option is
configured the resolver value — or, failing that, the literal fallback
`"biomed"` — is used, so initialization succeeds; in general it returns
`S_OK` exactly when the community string it resolved is non-empty. -/
theorem initAgent_error_iff (cfg : Option String) (voRes : String) :
    ((∃ m, (initAgent cfg voRes).1 = DRes.err m) ↔ cfg = some "") ∧
    ((initAgent cfg voRes).1 = DRes.ok () ↔ (initAgent cfg voRes).2 ≠ "") := by
  cases cfg with
  | none =>
    by_cases h : voRes = ""
    · subst h
      simp [initAgent, amGetOption, orElseStr]
    · simp [initAgent, amGetOption, orElseStr, h]
  | some v =>
    by_cases h : v = ""
    · subst h
      simp [initAgent, amGetOption]
    · simp [initAgent, amGetOption, h]

/-- C10: every exception raised inside `_buildQueueDict`'s `try` block after
the initial resources-module guard — the catalog call raising, the resolver
raising, or the sort-key evaluation raising a `KeyError` — is caught, and the
method returns `S_OK` exactly as on success, with `self.queueDict` left in
the state it had reached (the old dict for a catalog/resolver exception; the
annotated but unsorted dict for a sort exception); no exception propagates. -/
theorem buildQueueDict_swallows_exceptions {σ : Type} (e : String)
    (resolver : σ → Outcome (DRes (List (String × GQdict))))
    (draws : String → ℚ × ℚ) (st : List (String × GQdict))
    (sd : σ) (qd : List (String × GQdict)) :
    buildQueueDict (DRes.ok ()) (Outcome.raised e) resolver draws st = (DRes.ok (), st) ∧
    (resolver sd = Outcome.raised e →
      buildQueueDict (DRes.ok ()) (Outcome.returned (DRes.ok sd)) resolver draws st =
        (DRes.ok (), st)) ∧
    (resolver sd = Outcome.returned (DRes.ok qd) →
      trySortA (annotateAll draws qd) = none →
      buildQueueDict (DRes.ok ()) (Outcome.returned (DRes.ok sd)) resolver draws st =
        (DRes.ok (), annotateAll draws qd)) := by
  refine ⟨rfl, ?_, ?_⟩
  · intro h
    simp only [buildQueueDict, h]
  · intro h hs
    simp only [buildQueueDict, h, hs]

/-- Witness for C10: a resolver that returns a queue lacking a
`ParametersDict`, so the sort key raises — the method still returns `S_OK`
with the annotated, unsorted dict. -/
theorem buildQueueDict_swallows_exceptions_witness :
    buildQueueDict (DRes.ok ()) (Outcome.returned (DRes.ok ()))
        (fun _ : Unit => Outcome.returned (DRes.ok [("q1", GQdict.mk none)]))
        (fun _ => (1, 100)) [] =
      (DRes.ok (), annotateAll (fun _ => (1, 100)) [("q1", GQdict.mk none)]) :=
  (buildQueueDict_swallows_exceptions "err"
    (fun _ : Unit => Outcome.returned (DRes.ok [("q1", GQdict.mk none)]))
    (fun _ => (1, 100)) [] () [("q1", GQdict.mk none)]).2.2 rfl rfl

/-- C6: for every queue set and every behavior of the per-CE probe
(`available()` raising, returning an error result, or succeeding), the
`execute` cycle still completes with `S_OK`: the cycle report contains one
line per resolved queue in order (failing CEs' queues included, carrying a
warning instead of live load), a queue whose probe succeeds reports exactly
its live numbers, and a queue's report only depends on its own CE's probe
outcome — so failures of other CEs leave it unchanged, and no probe failure
escapes the cycle. -/
theorem probe_fail_soft {σ : Type} (sd : List σ) (hne : sd ≠ [])
    (resolver : List σ → DRes (List (String × AQdict)))
    (qd : List (String × AQdict)) (hres : resolver sd = DRes.ok qd)
    (probe probe' : String → Outcome AvailResult) :
    (executeAgent (DRes.ok sd) resolver probe).1 = DRes.ok () ∧
    (executeAgent (DRes.ok sd) resolver probe).2.map QueueReport.queueName =
      qd.map Prod.fst ∧
    (∀ nq ∈ qd, reportQueue probe nq ∈ (executeAgent (DRes.ok sd) resolver probe).2) ∧
    (∀ nq ∈ qd, ∀ c, nq.2.ce = some c →
      (∀ e, probe c = Outcome.raised e →
        (reportQueue probe nq).probe = ProbeOutcome.warnRaised e) ∧
      (∀ m, probe c = Outcome.returned (AvailResult.notOk m) →
        (reportQueue probe nq).probe = ProbeOutcome.warnNotOk m) ∧
      (∀ i, probe c = Outcome.returned (AvailResult.ok i) →
        (reportQueue probe nq).probe =
          ProbeOutcome.live i.runningJobs i.waitingJobs i.maxTotalJobs)) ∧
    (∀ nq ∈ qd, (∀ c, nq.2.ce = some c → probe' c = probe c) →
      reportQueue probe' nq = reportQueue probe nq) := by
  obtain ⟨s₀, st, rfl⟩ : ∃ s₀ st, sd = s₀ :: st := by
    cases sd with
    | nil => exact absurd rfl hne
    | cons s₀ st => exact ⟨s₀, st, rfl⟩
  have hexec : executeAgent (DRes.ok (s₀ :: st)) resolver probe =
      (DRes.ok (), qd.map (reportQueue probe)) := by
    simp only [executeAgent, hres]
  refine ⟨by rw [hexec], ?_, ?_, ?_, ?_⟩
  · rw [hexec, List.map_map]
    rfl
  · intro nq hmem
    rw [hexec]
    exact List.mem_map_of_mem (reportQueue probe) hmem
  · intro nq hmem c hce
    refine ⟨?_, ?_, ?_⟩
    · intro e hpe
      simp [reportQueue, hce, hpe]
    · intro m hpm
      simp [reportQueue, hce, hpm]
    · intro i hpi
      simp [reportQueue, hce, hpi]
  · intro nq hmem hagree
    cases hce : nq.2.ce with
    | none => simp [reportQueue, hce]
    | some c => simp [reportQueue, hce, hagree c hce]

/-- Witness for C6: two queues; CE `ceA` times out while `ceB` answers — the
cycle ends `S_OK`, both queues are reported, `qA` with a warning, `qB` with
its live numbers. -/
theorem probe_fail_soft_witness :
    (executeAgent (DRes.ok [()])
        (fun _ => DRes.ok [("qA", ⟨"S1", "ceA", "HTC", "short", [], some "ceA"⟩),
          ("qB", ⟨"S2", "ceB", "HTC", "long", [], some "ceB"⟩)])
        (fun c => if c = "ceA" then Outcome.raised "timeout"
          else Outcome.returned (AvailResult.ok ⟨1, 2, 3⟩))).1 = DRes.ok () ∧
    (executeAgent (DRes.ok [()])
        (fun _ => DRes.ok [("qA", ⟨"S1", "ceA", "HTC", "short", [], some "ceA"⟩),
          ("qB", ⟨"S2", "ceB", "HTC", "long", [], some "ceB"⟩)])
        (fun c => if c = "ceA" then Outcome.raised "timeout"
          else Outcome.returned (AvailResult.ok ⟨1, 2, 3⟩))).2.map QueueReport.queueName =
      ["qA", "qB"] ∧
    (reportQueue
        (fun c => if c = "ceA" then Outcome.raised "timeout"
          else Outcome.returned (AvailResult.ok ⟨1, 2, 3⟩))
        ("qA", ⟨"S1", "ceA", "HTC", "short", [], some "ceA"⟩)).probe =
      ProbeOutcome.warnRaised "timeout" ∧
    (reportQueue
        (fun c => if c = "ceA" then Outcome.raised "timeout"
          else Outcome.returned (AvailResult.ok ⟨1, 2, 3⟩))
        ("qB", ⟨"S2", "ceB", "HTC", "long", [], some "ceB"⟩)).probe =
      ProbeOutcome.live 1 2 3 := by
  have h := probe_fail_soft [()] (by simp)
    (fun _ => DRes.ok [("qA", ⟨"S1", "ceA", "HTC", "short", [], some "ceA"⟩),
      ("qB", ⟨"S2", "ceB", "HTC", "long", [], some "ceB"⟩)])
    [("qA", ⟨"S1", "ceA", "HTC", "short", [], some "ceA"⟩),
      ("qB", ⟨"S2", "ceB", "HTC", "long", [], some "ceB"⟩)] rfl
    (fun c => if c = "ceA" then Outcome.raised "timeout"
      else Outcome.returned (AvailResult.ok ⟨1, 2, 3⟩))
    (fun c => if c = "ceA" then Outcome.raised "timeout"
      else Outcome.returned (AvailResult.ok ⟨1, 2, 3⟩))
  refine ⟨h.1, h.2.1.trans rfl, ?_, ?_⟩
  · exact (h.2.2.2.1 ("qA", ⟨"S1", "ceA", "HTC", "short", [], some "ceA"⟩)
      (List.mem_cons_self _ _) "ceA" rfl).1 "timeout" rfl
  · exact (h.2.2.2.1 ("qB", ⟨"S2", "ceB", "HTC", "long", [], some "ceB"⟩)
      (List.mem_cons_of_mem _ (List.mem_cons_self _ _)) "ceB" rfl).2.2 ⟨1, 2, 3⟩ rfl

/-- C7: on every queue dict whose entries all carry `CPUTime` and have a CE
snapshot with `maxTotalJobs > 0` (the spec's "maxTotal > 0 expected"; a
missing `CPUTime` raises a `KeyError` and `maxTotal = 0` a
`ZeroDivisionError`, aborting the step with no output), the Variant-B
scoring-and-ranking step succeeds, the output carries exactly the same queue
names as the input (a permutation — no queue dropped or added), and every
output entry has a `CompositeScore` set. -/
theorem variantB_scored_permutation (ext : List (String × ExtMetrics))
    (l : List (String × QueueInfo))
    (h : ∀ nq ∈ l, (dlookup "CPUTime" nq.2.parametersDict).isSome = true)
    (hmax : ∀ nq ∈ l, 0 < nq.2.ceStats.maxTotalJobs) :
    ∃ out, computeQueueScores ext l = some out ∧
      List.Perm (out.map Prod.fst) (l.map Prod.fst) ∧
      ∀ nq ∈ out, (dlookup "CompositeScore" nq.2.parametersDict).isSome = true := by
  refine ⟨_, computeQueueScores_eq ext l h
    (fun nq hnq => Nat.pos_iff_ne_zero.mp (hmax nq hnq)), ?_, ?_⟩
  · have hperm := (sortByKey_perm kB qleB (l.map fun nq =>
      scoreQueueCore ext ((dlookup "CPUTime" nq.2.parametersDict).getD 0) nq)).map Prod.fst
    rwa [map_fst_scored] at hperm
  · intro nq hmem
    have hmem' : nq ∈ l.map fun nq =>
        scoreQueueCore ext ((dlookup "CPUTime" nq.2.parametersDict).getD 0) nq :=
      (sortByKey_perm kB qleB _).mem_iff.mp hmem
    obtain ⟨x, hx, rfl⟩ := List.mem_map.mp hmem'
    rw [lookupCS_scoreQueueCore]
    rfl

/-- Witness for C7: a concrete one-queue dict with `CPUTime` present is
scored successfully. -/
theorem variantB_scored_permutation_witness :
    (computeQueueScores [] [("q1", ⟨"S", "ce", ⟨1, 2, 3⟩, [("CPUTime", 3600)]⟩)]).isSome =
      true := by
  obtain ⟨out, hout, -, -⟩ := variantB_scored_permutation []
    [("q1", ⟨"S", "ce", ⟨1, 2, 3⟩, [("CPUTime", 3600)]⟩)] (by decide) (by decide)
  rw [hout]
  rfl

/-- C4: for every queue parameter mapping, the metric-synthesis loop of
`_buildQueueDict` never overwrites a `PUE` or `CI` already present; when a
field is absent it synthesizes exactly that field — the rounded
`uniform(1.0, 2.0)` draw for `PUE`, staying in `[1.0, 2.0]`, and the rounded
`uniform(100.0, 500.0)` draw for `CI`, staying in `[100.0, 500.0]` — so every
parameter mapping leaves annotation with both `PUE` and `CI` set, within the
documented bounds whenever they were synthesized. -/
theorem annotate_preserves_and_bounds (dp dc : ℚ) (pd : List (String × ℚ))
    (hdp1 : 1 ≤ dp) (hdp2 : dp ≤ 2) (hdc1 : 100 ≤ dc) (hdc2 : dc ≤ 500) :
    ∃ pd', annotateParams dp dc ⟨some pd⟩ = ⟨some pd'⟩ ∧
      (∀ v, dlookup "PUE" pd = some v → dlookup "PUE" pd' = some v) ∧
      (∀ v, dlookup "CI" pd = some v → dlookup "CI" pd' = some v) ∧
      (dlookup "PUE" pd = none →
        dlookup "PUE" pd' = some (pyRound 2 dp) ∧ 1 ≤ pyRound 2 dp ∧ pyRound 2 dp ≤ 2) ∧
      (dlookup "CI" pd = none →
        dlookup "CI" pd' = some (pyRound 1 dc) ∧
          100 ≤ pyRound 1 dc ∧ pyRound 1 dc ≤ 500) ∧
      (dlookup "PUE" pd').isSome = true ∧ (dlookup "CI" pd').isSome = true := by
  have hbP1 : (1 : ℚ) ≤ pyRound 2 dp := by
    have h := intCast_le_pyRound 2 dp 1 (by exact_mod_cast hdp1)
    exact_mod_cast h
  have hbP2 : pyRound 2 dp ≤ 2 := by
    have h := pyRound_le_intCast 2 dp 2 (by exact_mod_cast hdp2)
    exact_mod_cast h
  have hbC1 : (100 : ℚ) ≤ pyRound 1 dc := by
    have h := intCast_le_pyRound 1 dc 100 (by exact_mod_cast hdc1)
    exact_mod_cast h
  have hbC2 : pyRound 1 dc ≤ 500 := by
    have h := pyRound_le_intCast 1 dc 500 (by exact_mod_cast hdc2)
    exact_mod_cast h
  rcases hP : dlookup "PUE" pd with _ | vP
  · rcases hC : dlookup "CI" pd with _ | vC
    · -- both missing: PUE then CI are appended
      have hPin : dlookup "PUE" (pd ++ [("PUE", pyRound 2 dp)]) = some (pyRound 2 dp) := by
        rw [dlookup_append_of_none hP]
        simp [dlookup]
      have hC1 : dlookup "CI" (pd ++ [("PUE", pyRound 2 dp)]) = none := by
        rw [dlookup_append_of_none hC]
        simp [dlookup]
      refine ⟨(pd ++ [("PUE", pyRound 2 dp)]) ++ [("CI", pyRound 1 dc)],
        by simp [annotateParams, hP, hC1], ?_, ?_, ?_, ?_, ?_, ?_⟩
      · intro v hv
        exact Option.noConfusion hv
      · intro v hv
        exact Option.noConfusion hv
      · intro _
        exact ⟨dlookup_append_of_some hPin _, hbP1, hbP2⟩
      · intro _
        refine ⟨?_, hbC1, hbC2⟩
        rw [dlookup_append_of_none hC1]
        simp [dlookup]
      · rw [dlookup_append_of_some hPin]
        rfl
      · rw [dlookup_append_of_none hC1]
        simp [dlookup]
    · -- PUE missing, CI present
      have hC1 : dlookup "CI" (pd ++ [("PUE", pyRound 2 dp)]) = some vC :=
        dlookup_append_of_some hC _
      refine ⟨pd ++ [("PUE", pyRound 2 dp)],
        by simp [annotateParams, hP, hC1], ?_, ?_, ?_, ?_, ?_, ?_⟩
      · intro v hv
        exact Option.noConfusion hv
      · intro v hv
        injection hv with h
        exact h ▸ hC1
      · intro _
        refine ⟨?_, hbP1, hbP2⟩
        rw [dlookup_append_of_none hP]
        simp [dlookup]
      · intro habs
        exact Option.noConfusion habs
      · rw [dlookup_append_of_none hP]
        simp [dlookup]
      · rw [hC1]
        rfl
  · rcases hC : dlookup "CI" pd with _ | vC
    · -- PUE present, CI missing
      refine ⟨pd ++ [("CI", pyRound 1 dc)],
        by simp [annotateParams, hP, hC], ?_, ?_, ?_, ?_, ?_, ?_⟩
      · intro v hv
        injection hv with h
        exact h ▸ dlookup_append_of_some hP _
      · intro v hv
        exact Option.noConfusion hv
      · intro habs
        exact Option.noConfusion habs
      · intro _
        refine ⟨?_, hbC1, hbC2⟩
        rw [dlookup_append_of_none hC]
        simp [dlookup]
      · rw [dlookup_append_of_some hP]
        rfl
      · rw [dlookup_append_of_none hC]
        simp [dlookup]
    · -- both present: nothing changes
      refine ⟨pd, by simp [annotateParams, hP, hC],
        fun v hv => by injection hv with h; exact h ▸ hP,
        fun v hv => by injection hv with h; exact h ▸ hC, ?_, ?_, ?_, ?_⟩
      · intro habs
        exact Option.noConfusion habs
      · intro habs
        exact Option.noConfusion habs
      · simp [hP]
      · simp [hC]

/-- Witness for C4: a parameter dict carrying only `CPUTime`, with draws 1.5
and 250 — both metrics are synthesized, within bounds. -/
theorem annotate_preserves_and_bounds_witness :
    1 ≤ pyRound 2 1.5 ∧ pyRound 2 1.5 ≤ 2 ∧
    100 ≤ pyRound 1 250 ∧ pyRound 1 250 ≤ 500 ∧
    dlookup "PUE"
        ((annotateParams 1.5 250 ⟨some [("CPUTime", 3600)]⟩).parametersDict.getD []) =
      some (pyRound 2 1.5) ∧
    dlookup "CI"
        ((annotateParams 1.5 250 ⟨some [("CPUTime", 3600)]⟩).parametersDict.getD []) =
      some (pyRound 1 250) := by
  obtain ⟨pd', heq, h2, h3, h4, h5, h6, h7⟩ := annotate_preserves_and_bounds 1.5 250
    [("CPUTime", 3600)] (by norm_num) (by norm_num) (by norm_num) (by norm_num)
  obtain ⟨hPv, hb1, hb2⟩ := h4 rfl
  obtain ⟨hCv, hc1, hc2⟩ := h5 rfl
  rw [heq]
  exact ⟨hb1, hb2, hc1, hc2, hPv, hCv⟩

/-- C3 (code bug — the ranking is computed on the rounded scores): at sites
with CO₂ 19.422 and 19.424 the exact composite scores are 10.011 < 10.012,
which round to the same 2-decimal value; given in the order `[B, A]` — B
first, though B's exact score is larger — `_computeQueueScores` leaves B
ranked first, because it sorts on the stored rounded `CompositeScore`
(stable on ties), not on the unrounded values the claim requires. -/
theorem variantB_ranking_uses_rounded :
    exactScoreQ extRound 3600 queueRA < exactScoreQ extRound 3600 queueRB ∧
    pyRound 2 (exactScoreQ extRound 3600 queueRA) =
      pyRound 2 (exactScoreQ extRound 3600 queueRB) ∧
    ((computeQueueScores extRound [("B", queueRB), ("A", queueRA)]).getD []).map
        Prod.fst = ["B", "A"] := by
  have cA : extCO2 extRound "A" = 19.422 := by
    simp [extCO2, extRound, dlookup]
  have cB : extCO2 extRound "B" = 19.424 := by
    have h1 : ¬("A" : String) = "B" := by decide
    simp [extCO2, extRound, dlookup, h1]
  have eA : exactScoreQ extRound 3600 queueRA = 10.011 := by
    norm_num [exactScoreQ, queueRA, cA, loadFactorOf]
  have eB : exactScoreQ extRound 3600 queueRB = 10.012 := by
    norm_num [exactScoreQ, queueRB, cB, loadFactorOf]
  have hfA : ⌊(10.011 : ℚ) * 10 ^ 2⌋ = 1001 := by norm_num [Int.floor_eq_iff]
  have hfB : ⌊(10.012 : ℚ) * 10 ^ 2⌋ = 1001 := by norm_num [Int.floor_eq_iff]
  have rA : pyRound 2 (10.011 : ℚ) = ((1001 : ℤ) : ℚ) / 10 ^ 2 :=
    pyRound_eq_of_lt hfA (by norm_num)
  have rB : pyRound 2 (10.012 : ℚ) = ((1001 : ℤ) : ℚ) / 10 ^ 2 :=
    pyRound_eq_of_lt hfB (by norm_num)
  have hmap : ([("B", queueRB), ("A", queueRA)]).map
      (fun nq => scoreQueueCore extRound
        ((dlookup "CPUTime" nq.2.parametersDict).getD 0) nq) =
      [scoreQueueCore extRound 3600 ("B", queueRB),
        scoreQueueCore extRound 3600 ("A", queueRA)] := by
    simp [queueRB, queueRA, dlookup]
  have hkey : qleB (kB (scoreQueueCore extRound 3600 ("B", queueRB)))
      (kB (scoreQueueCore extRound 3600 ("A", queueRA))) = true := by
    simp only [kB_scoreQueueCore, qleB, decide_eq_true_eq]
    show pyRound 2 (exactScoreQ extRound 3600 queueRB) ≤
      pyRound 2 (exactScoreQ extRound 3600 queueRA)
    rw [eA, eB, rA, rB]
  have hsort : sortByKey kB qleB
      [scoreQueueCore extRound 3600 ("B", queueRB),
        scoreQueueCore extRound 3600 ("A", queueRA)] =
      [scoreQueueCore extRound 3600 ("B", queueRB),
        scoreQueueCore extRound 3600 ("A", queueRA)] := by
    simp only [sortByKey, isort, ordInsert]
    rw [if_pos hkey]
  refine ⟨by rw [eA, eB]; norm_num, by rw [eA, eB, rA, rB], ?_⟩
  rw [computeQueueScores_eq extRound _ (by decide) (by decide), hmap]
  simp only [Option.getD_some]
  rw [hsort]
  rfl

theorem scoreQueueCore_congr_ext {ext ext' : List (String × ExtMetrics)} {cpu : ℚ}
    {nq : String × QueueInfo} (h : extCO2 ext' nq.2.site = extCO2 ext nq.2.site) :
    scoreQueueCore ext' cpu nq = scoreQueueCore ext cpu nq := by
  unfold scoreQueueCore exactScoreQ
  rw [h]

/-- C8: increasing one queue's CO₂ input while everything else — the queue
dict, its order, every other queue's inputs and this queue's other inputs —
stays fixed never improves that queue's Variant-B rank: any other queue that
was ranked before it is still ranked before it after the increase.  The score
is monotone in CO₂ (weight 0.5 ≥ 0), 2-decimal rounding is monotone, and the
stable sort breaks the tie that rounding may create in favor of the input
order, which is unchanged. -/
theorem variantB_co2_monotone
    (ext ext' : List (String × ExtMetrics)) (l : List (String × QueueInfo))
    (hnd : (l.map Prod.fst).Nodup)
    (hcpu : ∀ nq ∈ l, (dlookup "CPUTime" nq.2.parametersDict).isSome = true)
    (s : String)
    (hext : ∀ t, t ≠ s → extCO2 ext' t = extCO2 ext t)
    (hinc : extCO2 ext s ≤ extCO2 ext' s)
    (n : String) (qn : QueueInfo) (hn : (n, qn) ∈ l) (hsite : qn.site = s)
    (hothers : ∀ nq ∈ l, nq.1 ≠ n → nq.2.site ≠ s)
    (u : String) (hu : u ≠ n)
    (out out' : List (String × QueueInfo))
    (hout : computeQueueScores ext l = some out)
    (hout' : computeQueueScores ext' l = some out')
    (hb : Before (out.map Prod.fst) u n) :
    Before (out'.map Prod.fst) u n := by
  have hmz : ∀ nq ∈ l, nq.2.ceStats.maxTotalJobs ≠ 0 := by
    rcases hs : scoreQueues ext l with _ | res
    · rw [computeQueueScores, hs] at hout
      exact absurd hout (by simp)
    · exact fun nq hnq => (scoreQueues_some_inv hs nq hnq).2
  have hX := computeQueueScores_eq ext l hcpu hmz
  rw [hout] at hX
  have hout_eq := Option.some.inj hX
  have hX' := computeQueueScores_eq ext' l hcpu hmz
  rw [hout'] at hX'
  have hout'_eq := Option.some.inj hX'
  subst hout_eq
  subst hout'_eq
  have hperm_names : List.Perm
      ((sortByKey kB qleB (l.map fun nq =>
        scoreQueueCore ext ((dlookup "CPUTime" nq.2.parametersDict).getD 0) nq)).map Prod.fst)
      (l.map Prod.fst) := by
    have hp := (sortByKey_perm kB qleB (l.map fun nq =>
      scoreQueueCore ext ((dlookup "CPUTime" nq.2.parametersDict).getD 0) nq)).map Prod.fst
    rwa [map_fst_scored] at hp
  have hu_names : u ∈ l.map Prod.fst := hperm_names.subset (before_mem hb).1
  have hu_entry : ∃ r, (u, r) ∈ l := by
    obtain ⟨⟨u₁, r⟩, hxl, hx1⟩ := List.mem_map.mp hu_names
    simp only at hx1
    subst hx1
    exact ⟨r, hxl⟩
  obtain ⟨qu, hul⟩ := hu_entry
  have hsite_u : qu.site ≠ s := hothers (u, qu) hul hu
  have hco2u : extCO2 ext' qu.site = extCO2 ext qu.site := hext qu.site hsite_u
  have hsame_u : scoreQueueCore ext' ((dlookup "CPUTime" qu.parametersDict).getD 0) (u, qu) =
      scoreQueueCore ext ((dlookup "CPUTime" qu.parametersDict).getD 0) (u, qu) :=
    scoreQueueCore_congr_ext hco2u
  have hmono_n :
      kB (scoreQueueCore ext ((dlookup "CPUTime" qn.parametersDict).getD 0) (n, qn)) ≤
      kB (scoreQueueCore ext' ((dlookup "CPUTime" qn.parametersDict).getD 0) (n, qn)) := by
    rw [kB_scoreQueueCore, kB_scoreQueueCore]
    apply pyRound_mono
    show exactScoreQ ext ((dlookup "CPUTime" qn.parametersDict).getD 0) qn ≤
      exactScoreQ ext' ((dlookup "CPUTime" qn.parametersDict).getD 0) qn
    unfold exactScoreQ
    have hc : extCO2 ext qn.site ≤ extCO2 ext' qn.site := by
      rw [hsite]
      exact hinc
    have hmul := mul_le_mul_of_nonneg_right hc (by norm_num : (0 : ℚ) ≤ 1 / 2)
    linarith
  have hcharU := beforeNames_sortByKey kB qleB qleB_total qleB_trans qleB_antisymm
    (l := l.map fun nq =>
      scoreQueueCore ext ((dlookup "CPUTime" nq.2.parametersDict).getD 0) nq)
    (by rw [map_fst_scored]; exact hnd)
    (List.mem_map_of_mem _ hul) (List.mem_map_of_mem _ hn) hu
  have hcharU' := beforeNames_sortByKey kB qleB qleB_total qleB_trans qleB_antisymm
    (l := l.map fun nq =>
      scoreQueueCore ext' ((dlookup "CPUTime" nq.2.parametersDict).getD 0) nq)
    (by rw [map_fst_scored]; exact hnd)
    (List.mem_map_of_mem _ hul) (List.mem_map_of_mem _ hn) hu
  apply hcharU'.mpr
  rcases hcharU.mp hb with ⟨hle, hne⟩ | ⟨heq, hbin⟩
  · have hlt : kB (scoreQueueCore ext ((dlookup "CPUTime" qu.parametersDict).getD 0) (u, qu)) <
        kB (scoreQueueCore ext ((dlookup "CPUTime" qn.parametersDict).getD 0) (n, qn)) := by
      have hle' := (decide_eq_true_eq).mp hle
      exact lt_of_le_of_ne hle' hne
    refine Or.inl ⟨?_, ?_⟩
    · rw [hsame_u]
      simp only [qleB, decide_eq_true_eq]
      exact le_of_lt (lt_of_lt_of_le hlt hmono_n)
    · rw [hsame_u]
      exact ne_of_lt (lt_of_lt_of_le hlt hmono_n)
  · rcases lt_or_eq_of_le hmono_n with hlt | heqy
    · refine Or.inl ⟨?_, ?_⟩
      · rw [hsame_u]
        simp only [qleB, decide_eq_true_eq]
        exact le_of_lt (heq ▸ hlt)
      · rw [hsame_u]
        exact ne_of_lt (heq ▸ hlt)
    · refine Or.inr ⟨?_, ?_⟩
      · rw [hsame_u, ← heqy]
        exact heq
      · rw [map_fst_scored]
        rw [map_fst_scored] at hbin
        exact hbin

/-- Witness for C8: queue `u` (site `U`, CO₂ 10) ranks before queue `n`
(site `N`); after raising `N`'s CO₂ from 20 to 30, `u` still ranks before
`n`. -/
theorem variantB_co2_monotone_witness :
    Before
      (((computeQueueScores extMonoHi [("u", queueMU), ("n", queueMN)]).getD []).map
        Prod.fst) "u" "n" := by
  have hout' := computeQueueScores_eq extMonoHi [("u", queueMU), ("n", queueMN)] (by decide)
    (by decide)
  have hb8 : Before
      ((sortByKey kB qleB ([("u", queueMU), ("n", queueMN)].map fun nq =>
        scoreQueueCore extMonoLo ((dlookup "CPUTime" nq.2.parametersDict).getD 0) nq)).map
        Prod.fst) "u" "n" := by
    have hmap8 : ([("u", queueMU), ("n", queueMN)].map fun nq =>
        scoreQueueCore extMonoLo ((dlookup "CPUTime" nq.2.parametersDict).getD 0) nq) =
        [scoreQueueCore extMonoLo 3600 ("u", queueMU),
          scoreQueueCore extMonoLo 3600 ("n", queueMN)] := by
      simp [queueMU, queueMN, dlookup]
    have hkey8 : qleB (kB (scoreQueueCore extMonoLo 3600 ("u", queueMU)))
        (kB (scoreQueueCore extMonoLo 3600 ("n", queueMN))) = true := by
      simp only [kB_scoreQueueCore, qleB, decide_eq_true_eq]
      apply pyRound_mono
      show exactScoreQ extMonoLo 3600 queueMU ≤ exactScoreQ extMonoLo 3600 queueMN
      have cU : extCO2 extMonoLo "U" = 10 := by
        simp [extCO2, extMonoLo, dlookup]
      have cN : extCO2 extMonoLo "N" = 20 := by
        have h1 : ¬("U" : String) = "N" := by decide
        simp [extCO2, extMonoLo, dlookup, h1]
      norm_num [exactScoreQ, queueMU, queueMN, cU, cN, loadFactorOf]
    rw [hmap8]
    simp only [sortByKey, isort, ordInsert]
    rw [if_pos hkey8]
    exact List.Sublist.refl _
  have h := variantB_co2_monotone extMonoLo extMonoHi [("u", queueMU), ("n", queueMN)]
    (by decide) (by decide) "N"
    (by
      intro t ht
      have h2 : ¬("N" : String) = t := fun hh => ht hh.symm
      simp only [extCO2, extMonoLo, extMonoHi, dlookup]
      by_cases h1 : ("U" : String) = t
      · simp [h1]
      · simp [h1, h2])
    (by
      have h1 : ¬("U" : String) = "N" := by decide
      norm_num [extCO2, extMonoLo, extMonoHi, dlookup, h1])
    "n" queueMN (List.mem_cons_of_mem _ (List.mem_cons_self _ _)) rfl
    (by decide) "u" (by decide) _ _
    (computeQueueScores_eq extMonoLo [("u", queueMU), ("n", queueMN)] (by decide) (by decide))
    hout' hb8
  rw [hout']
  simp only [Option.getD_some]
  exact h
